import Mathlib

/-!
Verification development for the per-user message-coalescing LLM service
(`app/services/llm_service.py`).

The pure helpers (`_format_conversation_history`, the prompt construction in
`generate_response`, `_process_tool_calls`, the response assembly block, and
`_cleanup_processor`) are embedded as Lean functions.  The concurrent
behaviour of `generate_response` under asyncio's cooperative scheduler is
embedded as a labelled transition system (`stepU`): tasks interleave only at
the genuine suspension points (the history fetch and the two completion
calls), so everything between two suspension points is one atomic step.
-/

namespace Twiga

/-! ## Roles (MessageRole values / raw role strings used in the source) -/

def systemRole : String := "system"
def userRole : String := "user"
def assistantRole : String := "assistant"
def toolRole : String := "tool"

/-- One message dict sent to the chat-completions API.  The Python code
builds plain dicts with some of the keys `role`, `content`, `tool_calls`,
`tool_call_id`; a missing key is `none` (`dict.get` returns `None`). -/
structure Turn where
  role : String
  content : Option String := none
  tool_calls : Option String := none
  tool_call_id : Option String := none
deriving Repr, DecidableEq

/-- A `ChatCompletionMessageToolCall`: `tool_call.function.name`,
`tool_call.function.arguments` (raw JSON string), `tool_call.id`. -/
structure ToolCallReq where
  name : String
  arguments : String
  id : String
deriving Repr, DecidableEq

/-- A `ChatCompletionMessage` returned by `_generate_completion`:
`.content` and `.tool_calls` (an empty list models a falsy value). -/
structure CompMsg where
  content : Option String
  tool_calls : List ToolCallReq
deriving Repr, DecidableEq

/-- A persisted `Message` row from `get_user_message_history`. -/
structure HistMsg where
  role : String
  content : String
deriving Repr, DecidableEq

/-- External collaborators of `_process_tool_calls`:
`parse` is `json.loads` on the raw argument string (`.error` = raises);
`registered` is the `tools_functions` table lookup, and the looked-up
function is the synchronous tool call composed with `json.dumps` on its
return value (`.error` = the invocation or serialization raises).
The parsed kwargs and serialized values are opaque strings. -/
structure ToolsEnv where
  parse : String → Except Unit String
  registered : String → Option (String → Except Unit String)

/-! ## `_process_tool_calls` -/

/-- `json.dumps` of one entry of `tool_calls_serializable`
(quote-escaping inside the field values is not modelled). -/
def dumpToolCall (tc : ToolCallReq) : String :=
  "\x7b\"function_name\": \"" ++ tc.name ++ "\", \"arguments\": \"" ++
    tc.arguments ++ "\", \"tool_call_id\": \"" ++ tc.id ++ "\"\x7d"

/-- `json.dumps(tool_calls_serializable)`. -/
def dumpToolCalls (tcs : List ToolCallReq) : String :=
  "[" ++ String.intercalate ", " (tcs.map dumpToolCall) ++ "]"

/-- The assistant turn echoing the raw tool-call requests
(`{"role": MessageRole.assistant, "tool_calls": json.dumps(...)}`). -/
def echoTurn (tcs : List ToolCallReq) : Turn :=
  { role := assistantRole, tool_calls := some (dumpToolCalls tcs) }

/-- The body of the per-call `try` block in `_process_tool_calls`:
parse the arguments (a raised exception is caught: no turn), look the name
up in `tools_functions` (unknown: no turn), invoke and serialize (a raised
exception is caught: no turn); on full success, one tool turn correlated by
the request's `tool_call_id`. -/
def toolResultTurn (env : ToolsEnv) (tc : ToolCallReq) : Option Turn :=
  match env.parse tc.arguments with
  | .error _ => none
  | .ok args =>
    match env.registered tc.name with
    | none => none
    | some f =>
      match f args with
      | .error _ => none
      | .ok result =>
        some { role := toolRole, content := some result, tool_call_id := some tc.id }

/-- `LLMClient._process_tool_calls`: copy the input list, append the
assistant echo turn, then for each tool call append its result turn when the
per-call `try` block completes. -/
def processToolCalls (env : ToolsEnv) (messages : List Turn)
    (tcs : List ToolCallReq) : List Turn :=
  let updated := messages ++ [echoTurn tcs]
  tcs.foldl
    (fun acc tc =>
      match toolResultTurn env tc with
      | none => acc
      | some turn => acc ++ [turn])
    updated

/-! ## `_format_conversation_history` and the prompt construction -/

/-- Projection of one history row into an API dict. -/
def histTurn (m : HistMsg) : Turn := { role := m.role, content := some m.content }

/-- `LLMClient._format_conversation_history`: a freshly generated system
turn followed by the persisted history in original order. -/
def formatConversationHistory (systemPrompt : String) (history : List HistMsg) :
    List Turn :=
  { role := systemRole, content := some systemPrompt } :: history.map histTurn

/-- Python's `l[:-k]` (for a nonnegative `k`): everything but the last `k`
elements, except that `k = 0` gives `l[:0] = []`. -/
def pySliceDropLast {α : Type} (l : List α) (k : Nat) : List α :=
  if k = 0 then [] else l.take (l.length - k)

/-- Python's `l[-k:]`: the last `k` elements, except that `k = 0` gives
`l[0:] = l`. -/
def pyTakeLast {α : Type} (l : List α) (k : Nat) : List α :=
  if k = 0 then l else l.drop (l.length - k)

/-- The synthetic user turn: `{"role": "user", "content": "\n".join(B)}`. -/
def userTurn (batch : List String) : Turn :=
  { role := userRole, content := some (String.intercalate "\n" batch) }

/-- The `api_messages` list built in `generate_response`:
`[*formatted_messages[:-(len(messages_to_process))], {"role": "user", ...}]`. -/
def apiMessages (systemPrompt : String) (history : List HistMsg)
    (batch : List String) : List Turn :=
  pySliceDropLast (formatConversationHistory systemPrompt history) batch.length
    ++ [userTurn batch]

/-! ## The response assembly after a tool-call round -/

/-- The `response_messages` block built from `updated_messages` after the
phase-2 completion: take the last `len(tool_calls) + 1` entries, keep each
entry's role, take the first entry's `tool_calls` value as its content and
every other entry's `content`, then append the final assistant turn. -/
def responseMessages (upd : List Turn) (numToolCalls : Nat)
    (finalContent : Option String) : List Turn :=
  (pyTakeLast upd (numToolCalls + 1)).enum.map
    (fun p =>
      ({ role := p.2.role,
         content := if p.1 = 0 then p.2.tool_calls else p.2.content } : Turn))
  ++ [{ role := assistantRole, content := finalContent }]

/-! ## Association lists keyed by `Nat` (the registry dict and the task table) -/

/-- Lookup by key (first matching entry). -/
def alookup {α : Type} : Nat → List (Nat × α) → Option α
  | _, [] => none
  | k, (a, v) :: r => if a = k then some v else alookup k r

/-- Replace the value at the first entry with the given key; identity when
the key is absent. -/
def aset {α : Type} (k : Nat) (v : α) : List (Nat × α) → List (Nat × α)
  | [] => []
  | (a, w) :: r => if a = k then (a, v) :: r else (a, w) :: aset k v r

/-! ## The cooperative transition system for `generate_response`

One user.  A *task* is one call of `generate_response` for this user;
`TaskPC` is its program counter, recording where it is suspended (with the
data computed before the suspension) or how it returned. -/

/-- Program counter of one `generate_response` call. -/
inductive TaskPC where
  /-- Suspended at `await get_user_message_history`, holding the snapshot
  `B = messages_to_process`. -/
  | atFetch (B : List String)
  /-- Suspended at the phase-1 `await self._generate_completion`, holding
  the snapshot and the `api_messages` list. -/
  | atP1 (B : List String) (api : List Turn)
  /-- Suspended at the phase-2 `await self._generate_completion`, holding
  the snapshot, `api_messages`, `len(initial_response.tool_calls)` and
  `updated_messages`. -/
  | atP2 (B : List String) (api : List Turn) (numTC : Nat) (upd : List Turn)
  /-- Returned `None` from the entry gate (lock already held). -/
  | doneDeferred
  /-- A generation attempt returned (`some` outcome on success, `none` on
  any failure path). -/
  | doneGen (ret : Option (List Turn))
deriving Repr, DecidableEq

/-- State of one user's processor together with the tasks touching it:
`registered` models `user_id ∈ self._processors`, `pending` the processor's
`messages` list, `lock` the holder of `processor.lock` (if any). -/
structure UState where
  registered : Bool
  pending : List String
  lock : Option Nat
  tasks : List (Nat × TaskPC)
deriving Repr, DecidableEq

def initU : UState := { registered := false, pending := [], lock := none, tasks := [] }

/-- `LLMClient._cleanup_processor`: delete the registry entry iff it exists,
`has_messages` is false and `is_locked` is false. -/
def cleanupU (s : UState) : UState :=
  if s.registered = true ∧ s.pending = [] ∧ s.lock = none then
    { s with registered := false }
  else s

/-- A terminal step that clears the buffer: `processor.clear_messages()`,
then `self._cleanup_processor(user.id)` (still under the lock), then the
`return` releases the lock. -/
def retClear (t : Nat) (s : UState) (r : Option (List Turn)) : UState :=
  let s1 := cleanupU { s with pending := [] }
  { s1 with lock := none, tasks := aset t (TaskPC.doneGen r) s1.tasks }

/-- A terminal step that does *not* clear the buffer (the
`if not initial_response: return None` / `if not final_response: return None`
paths): the `return` merely releases the lock. -/
def retNoClear (t : Nat) (s : UState) : UState :=
  { s with lock := none, tasks := aset t (TaskPC.doneGen none) s.tasks }

/-- The top of the `while True` loop, run by the lock holder `t`:
take the snapshot `messages_to_process = processor.get_pending_messages()`;
if it is empty, clear, attempt cleanup and return `None`; otherwise proceed
to the history fetch (the next suspension point). -/
def enterLoop (t : Nat) (s : UState) : UState :=
  if s.pending = [] then retClear t s none
  else { s with tasks := aset t (TaskPC.atFetch s.pending) s.tasks }

/-- The entry gate of `generate_response` for a fresh call `t` with inbound
text `msg`: `_get_processor` (creates the registry entry), `add_message`,
then either return `None` because the lock is held, or acquire the lock
(immediate, no suspension: the lock is free and asyncio is cooperative) and
run the loop top. -/
def entry (t : Nat) (msg : String) (s : UState) : UState :=
  let s1 := { s with registered := true, pending := s.pending ++ [msg] }
  match s1.lock with
  | some _ => { s1 with tasks := (t, TaskPC.doneDeferred) :: s1.tasks }
  | none =>
      enterLoop t
        { s1 with lock := some t, tasks := (t, TaskPC.doneDeferred) :: s1.tasks }

/-- Environment events: a new call arriving, or one of the awaited external
calls returning to a suspended task. -/
inductive Ev where
  | call (t : Nat) (msg : String)
  | histOk (t : Nat) (history : List HistMsg)
  | histFail (t : Nat)
  | p1 (t : Nat) (res : Option CompMsg)
  | p2 (t : Nat) (res : Option CompMsg)
deriving Repr, DecidableEq

/-- One atomic step of the system (between two suspension points).
`none` means the event is not enabled in this state. -/
def stepU (P : String) (env : ToolsEnv) (s : UState) : Ev → Option UState
  | .call t msg =>
    match alookup t s.tasks with
    | some _ => none
    | none => some (entry t msg s)
  | .histOk t H =>
    match alookup t s.tasks with
    | some (.atFetch B) =>
        some { s with tasks := aset t (TaskPC.atP1 B (apiMessages P H B)) s.tasks }
    | _ => none
  | .histFail t =>
    match alookup t s.tasks with
    | some (.atFetch _) => some (retClear t s none)
    | _ => none
  | .p1 t res =>
    match alookup t s.tasks with
    | some (.atP1 B api) =>
      match res with
      | none => some (retNoClear t s)
      | some m =>
        if s.pending.length > B.length then some (enterLoop t s)
        else if m.tool_calls = [] then
          some (retClear t s
            (some [{ role := assistantRole, content := m.content }]))
        else
          some { s with
            tasks := aset t
              (TaskPC.atP2 B api m.tool_calls.length
                (processToolCalls env api m.tool_calls)) s.tasks }
    | _ => none
  | .p2 t res =>
    match alookup t s.tasks with
    | some (.atP2 B _api n upd) =>
      match res with
      | none => some (retNoClear t s)
      | some m =>
        if s.pending.length > B.length then some (enterLoop t s)
        else some (retClear t s (some (responseMessages upd n m.content)))
    | _ => none

/-- Run a list of events from a state. -/
def runFrom (P : String) (env : ToolsEnv) (s : UState) : List Ev → Option UState
  | [] => some s
  | e :: es =>
    match stepU P env s e with
    | none => none
    | some s' => runFrom P env s' es

/-- The inbound texts carried by the `call` events of a trace, in order. -/
def callMsgs : List Ev → List String
  | [] => []
  | .call _ m :: es => m :: callMsgs es
  | _ :: es => callMsgs es

/-- Is this task a completed generation attempt (success or failure)?
Deferred calls do not count: no generation ran for them. -/
def TaskPC.isGenDone : TaskPC → Bool
  | .doneGen _ => true
  | _ => false

/-- Is this task in an active (post-lock-acquisition) state? -/
def TaskPC.isActive : TaskPC → Bool
  | .atFetch _ => true
  | .atP1 _ _ => true
  | .atP2 _ _ _ _ => true
  | _ => false

/-- The snapshot an active task is working from. -/
def TaskPC.snap : TaskPC → Option (List String)
  | .atFetch B => some B
  | .atP1 B _ => some B
  | .atP2 B _ _ _ => some B
  | _ => none

/-- The snapshot/prompt pair of a task suspended at a completion call. -/
def TaskPC.snapApi : TaskPC → Option (List String × List Turn)
  | .atP1 B api => some (B, api)
  | .atP2 B api _ _ => some (B, api)
  | _ => none

/-- No generation attempt for this user has completed yet. -/
def noGenDone (s : UState) : Prop :=
  ∀ p ∈ s.tasks, p.2.isGenDone = false

instance (s : UState) : Decidable (noGenDone s) :=
  inferInstanceAs (Decidable (∀ p ∈ s.tasks, p.2.isGenDone = false))

/-! ## The multi-user system

`self._processors` is a dict keyed by user id; every step of a call for user
`u` reads and writes only user `u`'s entry. -/

/-- The per-user state seen by a call for user `u`: the registry entry, or a
fresh processor state when `u` is unseen. -/
def guser (g : List (Nat × UState)) (u : Nat) : UState :=
  (alookup u g).getD initU

/-- Store user `u`'s updated state back into the registry. -/
def gset (u : Nat) (s : UState) (g : List (Nat × UState)) : List (Nat × UState) :=
  match alookup u g with
  | some _ => aset u s g
  | none => (u, s) :: g

/-- One step of the whole system: event `e` for user `u`. -/
def gstep (P : String) (env : ToolsEnv) (g : List (Nat × UState))
    (u : Nat) (e : Ev) : Option (List (Nat × UState)) :=
  match stepU P env (guser g u) e with
  | none => none
  | some s' => some (gset u s' g)

/-- Run a list of user-tagged events from a registry state. -/
def grunFrom (P : String) (env : ToolsEnv) (g : List (Nat × UState)) :
    List (Nat × Ev) → Option (List (Nat × UState))
  | [] => some g
  | ue :: ues =>
    match gstep P env g ue.1 ue.2 with
    | none => none
    | some g' => grunFrom P env g' ues

/-! ## Exception-explicit sequential embedding of `generate_response`

Used to state that no exception crosses the public boundary.  Each external
collaborator may raise (`Except.error`); `_generate_completion` catches its
own exceptions and returns `None`; the `try`/`except Exception` around the
loop body catches everything else.  Arrivals from concurrent calls land
during the awaits and are supplied by the oracle. -/

/-- The oracle for one iteration of the `while True` loop. -/
structure AttemptOracle where
  hist : Except Unit (List HistMsg)
  res1 : Except Unit CompMsg
  arr1 : List String
  res2 : Except Unit CompMsg
  arr2 : List String

/-- `LLMClient._generate_completion`: the provider call may raise; the
internal `try`/`except` turns a raised exception into `None`. -/
def generateCompletion (o : Except Unit CompMsg) : Option CompMsg :=
  match o with
  | .ok m => some m
  | .error _ => none

/-- One iteration of the loop body *inside* the outer `try`: any uncaught
exception propagates as `Except.error`.  Returns `Sum.inl ret` when the
iteration returns from `generate_response`, and `Sum.inr pending'` when the
restart check fires (`continue`). -/
def loopIter (P : String) (env : ToolsEnv) (o : AttemptOracle)
    (pending : List String) :
    Except Unit (Sum (Option (List Turn)) (List String)) := do
  let B := pending
  if B = [] then pure (Sum.inl none)
  else do
    let H ← o.hist
    let api := apiMessages P H B
    let pend1 := pending ++ o.arr1
    match generateCompletion o.res1 with
    | none => pure (Sum.inl none)
    | some m =>
      if pend1.length > B.length then pure (Sum.inr pend1)
      else if m.tool_calls = [] then
        pure (Sum.inl (some [{ role := assistantRole, content := m.content }]))
      else do
        let upd := processToolCalls env api m.tool_calls
        let pend2 := pend1 ++ o.arr2
        match generateCompletion o.res2 with
        | none => pure (Sum.inl none)
        | some f =>
          if pend2.length > B.length then pure (Sum.inr pend2)
          else pure (Sum.inl (some (responseMessages upd m.tool_calls.length f.content)))

/-- The `while True` loop with its `try`/`except Exception` handler: a
raised exception is caught and the iteration returns `None`.  The oracle
list is the fuel; `none` means the run needs more oracle entries. -/
def genLoopE (P : String) (env : ToolsEnv) :
    List AttemptOracle → List String → Option (Except Unit (Option (List Turn)))
  | [], _ => none
  | o :: os, pending =>
    match loopIter P env o pending with
    | .error _ => some (Except.ok none)
    | .ok (Sum.inl r) => some (Except.ok r)
    | .ok (Sum.inr pending') => genLoopE P env os pending'

/-- The public boundary: append the inbound message; if the lock is held,
return `None`; otherwise run the loop.  An `Except.error` result would mean
an exception escaped to the caller. -/
def generateResponseE (P : String) (env : ToolsEnv) (locked : Bool)
    (os : List AttemptOracle) (pending : List String) (msg : String) :
    Option (Except Unit (Option (List Turn))) :=
  let pending' := pending ++ [msg]
  if locked then some (Except.ok none)
  else genLoopE P env os pending'

/-! ## Lemmas: association lists -/

theorem alookup_cons_self {α : Type} (k : Nat) (v : α) (l : List (Nat × α)) :
    alookup k ((k, v) :: l) = some v := by
  simp [alookup]

theorem alookup_cons_ne {α : Type} {b a : Nat} (h : b ≠ a) (v : α)
    (l : List (Nat × α)) : alookup a ((b, v) :: l) = alookup a l := by
  simp [alookup, h]

theorem alookup_aset {α : Type} (k : Nat) (v : α) (l : List (Nat × α)) (a : Nat) :
    alookup a (aset k v l) =
      if a = k then (if (alookup k l).isSome then some v else none)
      else alookup a l := by
  induction l with
  | nil => by_cases h : a = k <;> simp [aset, alookup, h]
  | cons p r ih =>
    obtain ⟨b, w⟩ := p
    by_cases hbk : b = k
    · subst hbk
      by_cases hab : a = b
      · simp [aset, alookup, hab]
      · simp [aset, alookup, hab, Ne.symm hab]
    · by_cases hba : b = a
      · subst hba
        have : ¬ b = k := hbk
        simp [aset, alookup, hbk, this]
      · simp [aset, alookup, hbk, hba, ih]

theorem alookup_aset_self {α : Type} {k : Nat} {l : List (Nat × α)} (v : α)
    (h : (alookup k l).isSome) : alookup k (aset k v l) = some v := by
  simp [alookup_aset, h]

theorem alookup_aset_ne {α : Type} {k a : Nat} (h : a ≠ k) (v : α)
    (l : List (Nat × α)) : alookup a (aset k v l) = alookup a l := by
  simp [alookup_aset, h]

theorem mem_aset {α : Type} {q : Nat × α} {k : Nat} {v : α} {l : List (Nat × α)}
    (h : q ∈ aset k v l) : q = (k, v) ∨ q ∈ l := by
  induction l with
  | nil => simp [aset] at h
  | cons p r ih =>
    obtain ⟨b, w⟩ := p
    by_cases hbk : b = k
    · subst hbk
      rw [show aset b v ((b, w) :: r) = (b, v) :: r by simp [aset]] at h
      rcases List.mem_cons.mp h with hq | hq
      · exact Or.inl hq
      · exact Or.inr (List.mem_cons_of_mem _ hq)
    · rw [show aset k v ((b, w) :: r) = (b, w) :: aset k v r by simp [aset, hbk]] at h
      rcases List.mem_cons.mp h with hq | hq
      · exact Or.inr (by simp [hq])
      · rcases ih hq with h' | h'
        · exact Or.inl h'
        · exact Or.inr (List.mem_cons_of_mem _ h')

theorem aset_mem_or {α : Type} {q : Nat × α} {l : List (Nat × α)} (k : Nat) (v : α)
    (h : q ∈ l) : q ∈ aset k v l ∨ (q.1 = k ∧ alookup k l = some q.2) := by
  induction l with
  | nil => simp at h
  | cons p r ih =>
    obtain ⟨b, w⟩ := p
    rcases List.mem_cons.mp h with hq | hq
    · by_cases hbk : b = k
      · subst hbk; subst hq
        exact Or.inr ⟨rfl, alookup_cons_self b w r⟩
      · subst hq
        exact Or.inl (by simp [aset, hbk])
    · by_cases hbk : b = k
      · subst hbk
        exact Or.inl (by simp only [aset, if_pos rfl]; exact List.mem_cons_of_mem _ hq)
      · rcases ih hq with h' | h'
        · exact Or.inl (by simp only [aset, if_neg hbk]; exact List.mem_cons_of_mem _ h')
        · refine Or.inr ⟨h'.1, ?_⟩
          rw [alookup_cons_ne hbk]
          exact h'.2

theorem aset_mem_self {α : Type} {k : Nat} {l : List (Nat × α)} (v : α)
    (h : (alookup k l).isSome) : (k, v) ∈ aset k v l := by
  induction l with
  | nil => simp [alookup] at h
  | cons p r ih =>
    obtain ⟨b, w⟩ := p
    by_cases hbk : b = k
    · subst hbk; simp [aset]
    · rw [alookup_cons_ne hbk] at h
      simp only [aset, if_neg hbk, List.mem_cons]
      exact Or.inr (ih h)

/-! ## Lemmas: `_process_tool_calls` shape -/

theorem foldl_toolResults (env : ToolsEnv) (tcs : List ToolCallReq) (acc : List Turn) :
    tcs.foldl
      (fun acc tc =>
        match toolResultTurn env tc with
        | none => acc
        | some turn => acc ++ [turn]) acc
      = acc ++ tcs.filterMap (toolResultTurn env) := by
  induction tcs generalizing acc with
  | nil => simp
  | cons tc r ih =>
    simp only [List.foldl_cons, List.filterMap_cons]
    cases h : toolResultTurn env tc with
    | none => simp only [h]; rw [ih]
    | some turn => simp only [h]; rw [ih]; simp

theorem processToolCalls_eq (env : ToolsEnv) (msgs : List Turn)
    (tcs : List ToolCallReq) :
    processToolCalls env msgs tcs
      = msgs ++ echoTurn tcs :: tcs.filterMap (toolResultTurn env) := by
  unfold processToolCalls
  rw [foldl_toolResults]
  simp

/-! ## Lemmas: fields of the helper transitions -/

theorem cleanupU_pending (s : UState) : (cleanupU s).pending = s.pending := by
  unfold cleanupU; split <;> rfl

theorem cleanupU_lock (s : UState) : (cleanupU s).lock = s.lock := by
  unfold cleanupU; split <;> rfl

theorem cleanupU_tasks (s : UState) : (cleanupU s).tasks = s.tasks := by
  unfold cleanupU; split <;> rfl

theorem cleanupU_registered_of_locked {s : UState} (h : s.lock ≠ none) :
    (cleanupU s).registered = s.registered := by
  unfold cleanupU
  rw [if_neg (by intro hc; exact h hc.2.2)]

theorem retClear_pending (t : Nat) (s : UState) (r : Option (List Turn)) :
    (retClear t s r).pending = [] := by
  simp [retClear, cleanupU_pending]

theorem retClear_lock (t : Nat) (s : UState) (r : Option (List Turn)) :
    (retClear t s r).lock = none := rfl

theorem retClear_tasks (t : Nat) (s : UState) (r : Option (List Turn)) :
    (retClear t s r).tasks = aset t (TaskPC.doneGen r) s.tasks := by
  simp [retClear, cleanupU_tasks]

theorem retClear_registered {s : UState} (t : Nat) (r : Option (List Turn))
    (h : s.lock ≠ none) : (retClear t s r).registered = s.registered := by
  simp only [retClear]
  exact cleanupU_registered_of_locked h

/-! ## Invariants of the transition system -/

/-- Every task in an active (post-lock-acquisition) state holds the lock. -/
def InvLock (s : UState) : Prop :=
  ∀ t pc, alookup t s.tasks = some pc → pc.isActive = true → s.lock = some t

/-- Every active task's snapshot is a prefix of the pending buffer. -/
def InvSnap (s : UState) : Prop :=
  ∀ t pc B, alookup t s.tasks = some pc → pc.snap = some B → B <+: s.pending

/-- Every prompt held at a completion suspension was built by the prompt
construction from its snapshot and some fetched history. -/
def InvApi (P : String) (s : UState) : Prop :=
  ∀ t pc B api, alookup t s.tasks = some pc → pc.snapApi = some (B, api) →
    ∃ H, api = apiMessages P H B

def Invs (P : String) (s : UState) : Prop := InvLock s ∧ InvSnap s ∧ InvApi P s

theorem snap_isActive {pc : TaskPC} {B : List String} (h : pc.snap = some B) :
    pc.isActive = true := by
  cases pc <;> simp_all [TaskPC.snap, TaskPC.isActive]

theorem snapApi_snap {pc : TaskPC} {B : List String} {api : List Turn}
    (h : pc.snapApi = some (B, api)) : pc.snap = some B := by
  cases pc <;> simp_all [TaskPC.snapApi, TaskPC.snap]

theorem invs_init (P : String) : Invs P initU := by
  refine ⟨fun t pc h => ?_, fun t pc B h => ?_, fun t pc B api h => ?_⟩ <;>
    simp [initU, alookup] at h

theorem active_unique {s : UState} (hL : InvLock s) {t pc a pc' : _}
    (hl : alookup t s.tasks = some pc) (ha : pc.isActive = true)
    (hl' : alookup a s.tasks = some pc') (ha' : pc'.isActive = true) : a = t := by
  have h1 := hL t pc hl ha
  have h2 := hL a pc' hl' ha'
  rw [h1] at h2
  exact (Option.some.inj h2).symm

theorem invs_retClear {P : String} {s : UState} {t : Nat} {pc : TaskPC}
    (r : Option (List Turn)) (hl : alookup t s.tasks = some pc)
    (hact : pc.isActive = true) (hinv : Invs P s) : Invs P (retClear t s r) := by
  obtain ⟨hL, hS, hA⟩ := hinv
  have hsome : (alookup t s.tasks).isSome := by rw [hl]; rfl
  refine ⟨?_, ?_, ?_⟩
  · intro a pc' hla hact'
    rw [retClear_tasks] at hla
    by_cases hat : a = t
    · subst hat
      rw [alookup_aset_self _ hsome] at hla
      cases Option.some.inj hla
      simp [TaskPC.isActive] at hact'
    · rw [alookup_aset_ne hat _ _] at hla
      exact absurd (active_unique hL hl hact hla hact') hat
  · intro a pc' B hla hsnap
    rw [retClear_tasks] at hla
    by_cases hat : a = t
    · subst hat
      rw [alookup_aset_self _ hsome] at hla
      cases Option.some.inj hla
      simp [TaskPC.snap] at hsnap
    · rw [alookup_aset_ne hat _ _] at hla
      exact absurd (active_unique hL hl hact hla (snap_isActive hsnap)) hat
  · intro a pc' B api hla hsa
    rw [retClear_tasks] at hla
    by_cases hat : a = t
    · subst hat
      rw [alookup_aset_self _ hsome] at hla
      cases Option.some.inj hla
      simp [TaskPC.snapApi] at hsa
    · rw [alookup_aset_ne hat _ _] at hla
      exact absurd (active_unique hL hl hact hla (snap_isActive (snapApi_snap hsa))) hat

theorem invs_retNoClear {P : String} {s : UState} {t : Nat} {pc : TaskPC}
    (hl : alookup t s.tasks = some pc) (hact : pc.isActive = true)
    (hinv : Invs P s) : Invs P (retNoClear t s) := by
  obtain ⟨hL, hS, hA⟩ := hinv
  have hsome : (alookup t s.tasks).isSome := by rw [hl]; rfl
  refine ⟨?_, ?_, ?_⟩
  · intro a pc' hla hact'
    simp only [retNoClear] at hla
    by_cases hat : a = t
    · subst hat
      rw [alookup_aset_self _ hsome] at hla
      cases Option.some.inj hla
      simp [TaskPC.isActive] at hact'
    · rw [alookup_aset_ne hat _ _] at hla
      exact absurd (active_unique hL hl hact hla hact') hat
  · intro a pc' B hla hsnap
    simp only [retNoClear] at hla
    by_cases hat : a = t
    · subst hat
      rw [alookup_aset_self _ hsome] at hla
      cases Option.some.inj hla
      simp [TaskPC.snap] at hsnap
    · rw [alookup_aset_ne hat _ _] at hla
      exact hS a pc' B hla hsnap
  · intro a pc' B api hla hsa
    simp only [retNoClear] at hla
    by_cases hat : a = t
    · subst hat
      rw [alookup_aset_self _ hsome] at hla
      cases Option.some.inj hla
      simp [TaskPC.snapApi] at hsa
    · rw [alookup_aset_ne hat _ _] at hla
      exact hA a pc' B api hla hsa

theorem invs_enterLoop {P : String} {s : UState} {t : Nat}
    (hne : s.pending ≠ []) (hsome : (alookup t s.tasks).isSome)
    (hlock : s.lock = some t) (hinv : Invs P s) : Invs P (enterLoop t s) := by
  obtain ⟨hL, hS, hA⟩ := hinv
  rw [enterLoop, if_neg hne]
  refine ⟨?_, ?_, ?_⟩
  · intro a pc' hla hact'
    simp only at hla
    by_cases hat : a = t
    · subst hat
      exact hlock
    · rw [alookup_aset_ne hat _ _] at hla
      exact hL a pc' hla hact'
  · intro a pc' B hla hsnap
    simp only at hla
    by_cases hat : a = t
    · subst hat
      rw [alookup_aset_self _ hsome] at hla
      cases Option.some.inj hla
      simp only [TaskPC.snap] at hsnap
      cases Option.some.inj hsnap
      exact List.prefix_refl _
    · rw [alookup_aset_ne hat _ _] at hla
      exact hS a pc' B hla hsnap
  · intro a pc' B api hla hsa
    simp only at hla
    by_cases hat : a = t
    · subst hat
      rw [alookup_aset_self _ hsome] at hla
      cases Option.some.inj hla
      simp [TaskPC.snapApi] at hsa
    · rw [alookup_aset_ne hat _ _] at hla
      exact hA a pc' B api hla hsa

theorem invs_entry {P : String} {s : UState} {t : Nat} (msg : String)
    (_hl : alookup t s.tasks = none) (hinv : Invs P s) : Invs P (entry t msg s) := by
  obtain ⟨hL, hS, hA⟩ := hinv
  unfold entry
  cases hlk : s.lock with
  | some u =>
    simp only [hlk]
    refine ⟨?_, ?_, ?_⟩
    · intro a pc' hla hact'
      by_cases hta : t = a
      · subst hta
        rw [alookup_cons_self] at hla
        cases Option.some.inj hla
        simp [TaskPC.isActive] at hact'
      · rw [alookup_cons_ne hta _ _] at hla
        have hres := hL a pc' hla hact'
        rw [hlk] at hres
        exact hres
    · intro a pc' B hla hsnap
      by_cases hta : t = a
      · subst hta
        rw [alookup_cons_self] at hla
        cases Option.some.inj hla
        simp [TaskPC.snap] at hsnap
      · rw [alookup_cons_ne hta _ _] at hla
        exact (hS a pc' B hla hsnap).trans (List.prefix_append _ _)
    · intro a pc' B api hla hsa
      by_cases hta : t = a
      · subst hta
        rw [alookup_cons_self] at hla
        cases Option.some.inj hla
        simp [TaskPC.snapApi] at hsa
      · rw [alookup_cons_ne hta _ _] at hla
        exact hA a pc' B api hla hsa
  | none =>
    simp only [hlk]
    have hinv2 : Invs P
        { s with registered := true, pending := s.pending ++ [msg],
                 lock := some t, tasks := (t, TaskPC.doneDeferred) :: s.tasks } := by
      refine ⟨?_, ?_, ?_⟩
      · intro a pc' hla hact'
        by_cases hta : t = a
        · subst hta; rfl
        · rw [alookup_cons_ne hta _ _] at hla
          have := hL a pc' hla hact'
          rw [hlk] at this
          cases this
      · intro a pc' B hla hsnap
        by_cases hta : t = a
        · subst hta
          rw [alookup_cons_self] at hla
          cases Option.some.inj hla
          simp [TaskPC.snap] at hsnap
        · rw [alookup_cons_ne hta _ _] at hla
          have := hL a pc' hla (snap_isActive hsnap)
          rw [hlk] at this
          cases this
      · intro a pc' B api hla hsa
        by_cases hta : t = a
        · subst hta
          rw [alookup_cons_self] at hla
          cases Option.some.inj hla
          simp [TaskPC.snapApi] at hsa
        · rw [alookup_cons_ne hta _ _] at hla
          have := hL a pc' hla (snap_isActive (snapApi_snap hsa))
          rw [hlk] at this
          cases this
    refine invs_enterLoop ?_ ?_ rfl hinv2
    · simp
    · rw [alookup_cons_self]; rfl

theorem invs_histOk_aux {P : String} {s : UState} {t : Nat} {B : List String}
    (H : List HistMsg) (hl : alookup t s.tasks = some (TaskPC.atFetch B))
    (hinv : Invs P s) :
    Invs P { s with tasks := aset t (TaskPC.atP1 B (apiMessages P H B)) s.tasks } := by
  obtain ⟨hL, hS, hA⟩ := hinv
  have hsome : (alookup t s.tasks).isSome := by rw [hl]; rfl
  refine ⟨?_, ?_, ?_⟩
  · intro a pc' hla hact'
    simp only at hla
    by_cases hat : a = t
    · subst hat
      exact hL _ _ hl rfl
    · rw [alookup_aset_ne hat _ _] at hla
      exact hL a pc' hla hact'
  · intro a pc' B' hla hsnap
    simp only at hla
    by_cases hat : a = t
    · subst hat
      rw [alookup_aset_self _ hsome] at hla
      cases Option.some.inj hla
      simp only [TaskPC.snap] at hsnap
      cases Option.some.inj hsnap
      exact hS _ _ B hl rfl
    · rw [alookup_aset_ne hat _ _] at hla
      exact hS a pc' B' hla hsnap
  · intro a pc' B' api' hla hsa
    simp only at hla
    by_cases hat : a = t
    · subst hat
      rw [alookup_aset_self _ hsome] at hla
      cases Option.some.inj hla
      simp only [TaskPC.snapApi] at hsa
      cases Option.some.inj hsa
      exact ⟨H, rfl⟩
    · rw [alookup_aset_ne hat _ _] at hla
      exact hA a pc' B' api' hla hsa

theorem invs_toP2_aux {P : String} {s : UState} {t : Nat} {B : List String}
    {api : List Turn} (n : Nat) (upd : List Turn)
    (hl : alookup t s.tasks = some (TaskPC.atP1 B api)) (hinv : Invs P s) :
    Invs P { s with tasks := aset t (TaskPC.atP2 B api n upd) s.tasks } := by
  obtain ⟨hL, hS, hA⟩ := hinv
  have hsome : (alookup t s.tasks).isSome := by rw [hl]; rfl
  refine ⟨?_, ?_, ?_⟩
  · intro a pc' hla hact'
    simp only at hla
    by_cases hat : a = t
    · subst hat
      exact hL _ _ hl rfl
    · rw [alookup_aset_ne hat _ _] at hla
      exact hL a pc' hla hact'
  · intro a pc' B' hla hsnap
    simp only at hla
    by_cases hat : a = t
    · subst hat
      rw [alookup_aset_self _ hsome] at hla
      cases Option.some.inj hla
      simp only [TaskPC.snap] at hsnap
      cases Option.some.inj hsnap
      exact hS _ _ B hl rfl
    · rw [alookup_aset_ne hat _ _] at hla
      exact hS a pc' B' hla hsnap
  · intro a pc' B' api' hla hsa
    simp only at hla
    by_cases hat : a = t
    · subst hat
      rw [alookup_aset_self _ hsome] at hla
      cases Option.some.inj hla
      simp only [TaskPC.snapApi] at hsa
      cases Option.some.inj hsa
      exact hA _ _ B api hl rfl
    · rw [alookup_aset_ne hat _ _] at hla
      exact hA a pc' B' api' hla hsa

theorem invs_step {P : String} {env : ToolsEnv} {s : UState} {e : Ev} {s' : UState}
    (h : stepU P env s e = some s') (hinv : Invs P s) : Invs P s' := by
  cases e with
  | call t msg =>
    cases hl : alookup t s.tasks with
    | some pc => simp only [stepU, hl] at h; exact Option.noConfusion h
    | none =>
      simp only [stepU, hl] at h
      cases h
      exact invs_entry msg hl hinv
  | histOk t H =>
    cases hl : alookup t s.tasks with
    | none => simp only [stepU, hl] at h; exact Option.noConfusion h
    | some pc =>
      cases pc with
      | atFetch B =>
        simp only [stepU, hl] at h
        cases h
        exact invs_histOk_aux H hl hinv
      | atP1 B api => simp only [stepU, hl] at h; exact Option.noConfusion h
      | atP2 B api n upd => simp only [stepU, hl] at h; exact Option.noConfusion h
      | doneDeferred => simp only [stepU, hl] at h; exact Option.noConfusion h
      | doneGen r => simp only [stepU, hl] at h; exact Option.noConfusion h
  | histFail t =>
    cases hl : alookup t s.tasks with
    | none => simp only [stepU, hl] at h; exact Option.noConfusion h
    | some pc =>
      cases pc with
      | atFetch B =>
        simp only [stepU, hl] at h
        cases h
        exact invs_retClear none hl rfl hinv
      | atP1 B api => simp only [stepU, hl] at h; exact Option.noConfusion h
      | atP2 B api n upd => simp only [stepU, hl] at h; exact Option.noConfusion h
      | doneDeferred => simp only [stepU, hl] at h; exact Option.noConfusion h
      | doneGen r => simp only [stepU, hl] at h; exact Option.noConfusion h
  | p1 t res =>
    cases hl : alookup t s.tasks with
    | none => simp only [stepU, hl] at h; exact Option.noConfusion h
    | some pc =>
      cases pc with
      | atFetch B => simp only [stepU, hl] at h; exact Option.noConfusion h
      | atP1 B api =>
        cases res with
        | none =>
          simp only [stepU, hl] at h
          cases h
          exact invs_retNoClear hl rfl hinv
        | some m =>
          simp only [stepU, hl] at h
          by_cases hgrow : s.pending.length > B.length
          · rw [if_pos hgrow] at h
            cases h
            have hne : s.pending ≠ [] := by
              intro hnil
              rw [hnil] at hgrow
              simp at hgrow
            exact invs_enterLoop hne (by rw [hl]; rfl) (hinv.1 t _ hl rfl) hinv
          · rw [if_neg hgrow] at h
            by_cases htc : m.tool_calls = []
            · rw [if_pos htc] at h
              cases h
              exact invs_retClear _ hl rfl hinv
            · rw [if_neg htc] at h
              cases h
              exact invs_toP2_aux _ _ hl hinv
      | atP2 B api n upd => simp only [stepU, hl] at h; exact Option.noConfusion h
      | doneDeferred => simp only [stepU, hl] at h; exact Option.noConfusion h
      | doneGen r => simp only [stepU, hl] at h; exact Option.noConfusion h
  | p2 t res =>
    cases hl : alookup t s.tasks with
    | none => simp only [stepU, hl] at h; exact Option.noConfusion h
    | some pc =>
      cases pc with
      | atFetch B => simp only [stepU, hl] at h; exact Option.noConfusion h
      | atP1 B api => simp only [stepU, hl] at h; exact Option.noConfusion h
      | atP2 B api n upd =>
        cases res with
        | none =>
          simp only [stepU, hl] at h
          cases h
          exact invs_retNoClear hl rfl hinv
        | some m =>
          simp only [stepU, hl] at h
          by_cases hgrow : s.pending.length > B.length
          · rw [if_pos hgrow] at h
            cases h
            have hne : s.pending ≠ [] := by
              intro hnil
              rw [hnil] at hgrow
              simp at hgrow
            exact invs_enterLoop hne (by rw [hl]; rfl) (hinv.1 t _ hl rfl) hinv
          · rw [if_neg hgrow] at h
            cases h
            exact invs_retClear _ hl rfl hinv
      | doneDeferred => simp only [stepU, hl] at h; exact Option.noConfusion h
      | doneGen r => simp only [stepU, hl] at h; exact Option.noConfusion h

theorem invs_run {P : String} {env : ToolsEnv} :
    ∀ {es : List Ev} {s s' : UState}, runFrom P env s es = some s' →
      Invs P s → Invs P s' := by
  intro es
  induction es with
  | nil =>
    intro s s' h hinv
    simp only [runFrom] at h
    cases h
    exact hinv
  | cons e es ih =>
    intro s s' h hinv
    simp only [runFrom] at h
    cases hst : stepU P env s e with
    | none => rw [hst] at h; cases h
    | some s1 =>
      rw [hst] at h
      exact ih h (invs_step hst hinv)

/-! ## The pending buffer over traces without a completed generation -/

/-- The messages appended to the buffer by an event. -/
def appendsOf : Ev → List String
  | .call _ m => [m]
  | _ => []

theorem callMsgs_cons (e : Ev) (es : List Ev) :
    callMsgs (e :: es) = appendsOf e ++ callMsgs es := by
  cases e <;> simp [callMsgs, appendsOf]

theorem noGenDone_retClear_false {s : UState} {t : Nat} {pc : TaskPC}
    (r : Option (List Turn)) (hl : alookup t s.tasks = some pc) :
    ¬ noGenDone (retClear t s r) := by
  intro hnd
  have hmem : (t, TaskPC.doneGen r) ∈ (retClear t s r).tasks := by
    rw [retClear_tasks]
    exact aset_mem_self _ (by rw [hl]; rfl)
  have := hnd _ hmem
  simp [TaskPC.isGenDone] at this

theorem noGenDone_retNoClear_false {s : UState} {t : Nat} {pc : TaskPC}
    (hl : alookup t s.tasks = some pc) : ¬ noGenDone (retNoClear t s) := by
  intro hnd
  have hmem : (t, TaskPC.doneGen none) ∈ (retNoClear t s).tasks := by
    simp only [retNoClear]
    exact aset_mem_self _ (by rw [hl]; rfl)
  have := hnd _ hmem
  simp [TaskPC.isGenDone] at this

theorem noGenDone_aset_back {l : List (Nat × TaskPC)} {t : Nat} {pc pc₀ : TaskPC}
    (hl : alookup t l = some pc₀) (h₀ : pc₀.isGenDone = false)
    (hnd : ∀ p ∈ aset t pc l, p.2.isGenDone = false) :
    ∀ p ∈ l, p.2.isGenDone = false := by
  intro p hp
  rcases aset_mem_or t pc hp with hmem | ⟨_, hlp⟩
  · exact hnd p hmem
  · have hpc : p.2 = pc₀ := by
      rw [hlp] at hl
      exact Option.some.inj hl
    rw [hpc]
    exact h₀

theorem step_pending_log {P : String} {env : ToolsEnv} {s : UState} {e : Ev}
    {s' : UState} (h : stepU P env s e = some s') (hnd : noGenDone s') :
    noGenDone s ∧ s'.pending = s.pending ++ appendsOf e := by
  cases e with
  | call t msg =>
    cases hl : alookup t s.tasks with
    | some pc => simp only [stepU, hl] at h; exact Option.noConfusion h
    | none =>
      simp only [stepU, hl] at h
      cases h
      unfold entry at hnd ⊢
      cases hlk : s.lock with
      | some u =>
        simp only [hlk] at hnd ⊢
        refine ⟨fun p hp => hnd p (List.mem_cons_of_mem _ hp), ?_⟩
        simp [appendsOf]
      | none =>
        simp only [hlk] at hnd ⊢
        have hne : s.pending ++ [msg] ≠ [] := by simp
        rw [enterLoop, if_neg hne] at hnd ⊢
        rw [show aset t (TaskPC.atFetch (s.pending ++ [msg]))
              ((t, TaskPC.doneDeferred) :: s.tasks)
            = (t, TaskPC.atFetch (s.pending ++ [msg])) :: s.tasks by
          simp [aset]] at hnd
        refine ⟨fun p hp => hnd p (List.mem_cons_of_mem _ hp), ?_⟩
        simp [appendsOf]
  | histOk t H =>
    cases hl : alookup t s.tasks with
    | none => simp only [stepU, hl] at h; exact Option.noConfusion h
    | some pc =>
      cases pc with
      | atFetch B =>
        simp only [stepU, hl] at h
        cases h
        refine ⟨noGenDone_aset_back hl rfl hnd, ?_⟩
        simp [appendsOf]
      | atP1 B api => simp only [stepU, hl] at h; exact Option.noConfusion h
      | atP2 B api n upd => simp only [stepU, hl] at h; exact Option.noConfusion h
      | doneDeferred => simp only [stepU, hl] at h; exact Option.noConfusion h
      | doneGen r => simp only [stepU, hl] at h; exact Option.noConfusion h
  | histFail t =>
    cases hl : alookup t s.tasks with
    | none => simp only [stepU, hl] at h; exact Option.noConfusion h
    | some pc =>
      cases pc with
      | atFetch B =>
        simp only [stepU, hl] at h
        cases h
        exact absurd hnd (noGenDone_retClear_false _ hl)
      | atP1 B api => simp only [stepU, hl] at h; exact Option.noConfusion h
      | atP2 B api n upd => simp only [stepU, hl] at h; exact Option.noConfusion h
      | doneDeferred => simp only [stepU, hl] at h; exact Option.noConfusion h
      | doneGen r => simp only [stepU, hl] at h; exact Option.noConfusion h
  | p1 t res =>
    cases hl : alookup t s.tasks with
    | none => simp only [stepU, hl] at h; exact Option.noConfusion h
    | some pc =>
      cases pc with
      | atFetch B => simp only [stepU, hl] at h; exact Option.noConfusion h
      | atP1 B api =>
        cases res with
        | none =>
          simp only [stepU, hl] at h
          cases h
          exact absurd hnd (noGenDone_retNoClear_false hl)
        | some m =>
          simp only [stepU, hl] at h
          by_cases hgrow : s.pending.length > B.length
          · rw [if_pos hgrow] at h
            cases h
            have hne : s.pending ≠ [] := by
              intro hnil
              rw [hnil] at hgrow
              simp at hgrow
            rw [enterLoop, if_neg hne] at hnd ⊢
            refine ⟨noGenDone_aset_back hl rfl hnd, ?_⟩
            simp [appendsOf]
          · rw [if_neg hgrow] at h
            by_cases htc : m.tool_calls = []
            · rw [if_pos htc] at h
              cases h
              exact absurd hnd (noGenDone_retClear_false _ hl)
            · rw [if_neg htc] at h
              cases h
              refine ⟨noGenDone_aset_back hl rfl hnd, ?_⟩
              simp [appendsOf]
      | atP2 B api n upd => simp only [stepU, hl] at h; exact Option.noConfusion h
      | doneDeferred => simp only [stepU, hl] at h; exact Option.noConfusion h
      | doneGen r => simp only [stepU, hl] at h; exact Option.noConfusion h
  | p2 t res =>
    cases hl : alookup t s.tasks with
    | none => simp only [stepU, hl] at h; exact Option.noConfusion h
    | some pc =>
      cases pc with
      | atFetch B => simp only [stepU, hl] at h; exact Option.noConfusion h
      | atP1 B api => simp only [stepU, hl] at h; exact Option.noConfusion h
      | atP2 B api n upd =>
        cases res with
        | none =>
          simp only [stepU, hl] at h
          cases h
          exact absurd hnd (noGenDone_retNoClear_false hl)
        | some m =>
          simp only [stepU, hl] at h
          by_cases hgrow : s.pending.length > B.length
          · rw [if_pos hgrow] at h
            cases h
            have hne : s.pending ≠ [] := by
              intro hnil
              rw [hnil] at hgrow
              simp at hgrow
            rw [enterLoop, if_neg hne] at hnd ⊢
            refine ⟨noGenDone_aset_back hl rfl hnd, ?_⟩
            simp [appendsOf]
          · rw [if_neg hgrow] at h
            cases h
            exact absurd hnd (noGenDone_retClear_false _ hl)
      | doneDeferred => simp only [stepU, hl] at h; exact Option.noConfusion h
      | doneGen r => simp only [stepU, hl] at h; exact Option.noConfusion h

theorem run_pending_log {P : String} {env : ToolsEnv} :
    ∀ {es : List Ev} {s s' : UState}, runFrom P env s es = some s' →
      noGenDone s' → noGenDone s ∧ s'.pending = s.pending ++ callMsgs es := by
  intro es
  induction es with
  | nil =>
    intro s s' h hnd
    simp only [runFrom] at h
    cases h
    exact ⟨hnd, by simp [callMsgs]⟩
  | cons e es ih =>
    intro s s' h hnd
    simp only [runFrom] at h
    cases hst : stepU P env s e with
    | none => rw [hst] at h; exact Option.noConfusion h
    | some s1 =>
      rw [hst] at h
      obtain ⟨hnd1, hp1⟩ := ih h hnd
      obtain ⟨hnd0, hp0⟩ := step_pending_log hst hnd1
      refine ⟨hnd0, ?_⟩
      rw [hp1, hp0, callMsgs_cons, List.append_assoc]

/-- From the initial state: while no generation has completed, the pending
buffer is exactly the list of all appended messages, in arrival order. -/
theorem reach_pending {P : String} {env : ToolsEnv} {es : List Ev} {s : UState}
    (h : runFrom P env initU es = some s) (hnd : noGenDone s) :
    s.pending = callMsgs es := by
  have hres := run_pending_log h hnd
  rw [hres.2]
  simp [initU]

/-! ## Characterizations of the individual steps -/

theorem entry_locked_eq {s : UState} {t' : Nat} (hlock : s.lock = some t')
    (t : Nat) (msg : String) :
    entry t msg s
      = { s with registered := true, pending := s.pending ++ [msg],
                 tasks := (t, TaskPC.doneDeferred) :: s.tasks } := by
  unfold entry
  simp only [hlock]

theorem step_call_eq {P : String} {env : ToolsEnv} {s : UState} {t : Nat}
    (msg : String) (hl : alookup t s.tasks = none) :
    stepU P env s (Ev.call t msg) = some (entry t msg s) := by
  simp only [stepU, hl]

theorem step_histOk_eq {P : String} {env : ToolsEnv} {s : UState} {t : Nat}
    {B : List String} (H : List HistMsg)
    (hl : alookup t s.tasks = some (TaskPC.atFetch B)) :
    stepU P env s (Ev.histOk t H)
      = some { s with tasks := aset t (TaskPC.atP1 B (apiMessages P H B)) s.tasks } := by
  simp only [stepU, hl]

theorem step_histFail_eq {P : String} {env : ToolsEnv} {s : UState} {t : Nat}
    {B : List String} (hl : alookup t s.tasks = some (TaskPC.atFetch B)) :
    stepU P env s (Ev.histFail t) = some (retClear t s none) := by
  simp only [stepU, hl]

theorem step_p1_none_eq {P : String} {env : ToolsEnv} {s : UState} {t : Nat}
    {B : List String} {api : List Turn}
    (hl : alookup t s.tasks = some (TaskPC.atP1 B api)) :
    stepU P env s (Ev.p1 t none) = some (retNoClear t s) := by
  simp only [stepU, hl]

theorem step_p1_restart_eq {P : String} {env : ToolsEnv} {s : UState} {t : Nat}
    {B : List String} {api : List Turn} (m : CompMsg)
    (hl : alookup t s.tasks = some (TaskPC.atP1 B api))
    (hgrow : s.pending.length > B.length) :
    stepU P env s (Ev.p1 t (some m)) = some (enterLoop t s) := by
  simp only [stepU, hl]
  rw [if_pos hgrow]

theorem step_p1_success_eq {P : String} {env : ToolsEnv} {s : UState} {t : Nat}
    {B : List String} {api : List Turn} {m : CompMsg}
    (hl : alookup t s.tasks = some (TaskPC.atP1 B api))
    (hgrow : ¬ s.pending.length > B.length) (htc : m.tool_calls = []) :
    stepU P env s (Ev.p1 t (some m))
      = some (retClear t s (some [{ role := assistantRole, content := m.content }])) := by
  simp only [stepU, hl]
  rw [if_neg hgrow, if_pos htc]

theorem step_p1_tools_eq {P : String} {env : ToolsEnv} {s : UState} {t : Nat}
    {B : List String} {api : List Turn} {m : CompMsg}
    (hl : alookup t s.tasks = some (TaskPC.atP1 B api))
    (hgrow : ¬ s.pending.length > B.length) (htc : ¬ m.tool_calls = []) :
    stepU P env s (Ev.p1 t (some m))
      = some { s with
          tasks := aset t
            (TaskPC.atP2 B api m.tool_calls.length
              (processToolCalls env api m.tool_calls)) s.tasks } := by
  simp only [stepU, hl]
  rw [if_neg hgrow, if_neg htc]

theorem step_p2_none_eq {P : String} {env : ToolsEnv} {s : UState} {t : Nat}
    {B : List String} {api : List Turn} {n : Nat} {upd : List Turn}
    (hl : alookup t s.tasks = some (TaskPC.atP2 B api n upd)) :
    stepU P env s (Ev.p2 t none) = some (retNoClear t s) := by
  simp only [stepU, hl]

theorem step_p2_restart_eq {P : String} {env : ToolsEnv} {s : UState} {t : Nat}
    {B : List String} {api : List Turn} {n : Nat} {upd : List Turn} (m : CompMsg)
    (hl : alookup t s.tasks = some (TaskPC.atP2 B api n upd))
    (hgrow : s.pending.length > B.length) :
    stepU P env s (Ev.p2 t (some m)) = some (enterLoop t s) := by
  simp only [stepU, hl]
  rw [if_pos hgrow]

theorem step_p2_success_eq {P : String} {env : ToolsEnv} {s : UState} {t : Nat}
    {B : List String} {api : List Turn} {n : Nat} {upd : List Turn} (m : CompMsg)
    (hl : alookup t s.tasks = some (TaskPC.atP2 B api n upd))
    (hgrow : ¬ s.pending.length > B.length) :
    stepU P env s (Ev.p2 t (some m))
      = some (retClear t s (some (responseMessages upd n m.content))) := by
  simp only [stepU, hl]
  rw [if_neg hgrow]

theorem alookup_retClear_self {s : UState} {t : Nat} {pc : TaskPC}
    (r : Option (List Turn)) (hl : alookup t s.tasks = some pc) :
    alookup t (retClear t s r).tasks = some (TaskPC.doneGen r) := by
  rw [retClear_tasks]
  exact alookup_aset_self _ (by rw [hl]; rfl)

theorem alookup_retNoClear_self {s : UState} {t : Nat} {pc : TaskPC}
    (hl : alookup t s.tasks = some pc) :
    alookup t (retNoClear t s).tasks = some (TaskPC.doneGen none) := by
  simp only [retNoClear]
  exact alookup_aset_self _ (by rw [hl]; rfl)

theorem alookup_enterLoop_self {s : UState} {t : Nat} {pc : TaskPC}
    (hne : s.pending ≠ []) (hl : alookup t s.tasks = some pc) :
    alookup t (enterLoop t s).tasks = some (TaskPC.atFetch s.pending) := by
  rw [enterLoop, if_neg hne]
  exact alookup_aset_self _ (by rw [hl]; rfl)

theorem pending_ne_nil_of_grow {s : UState} {B : List String}
    (hgrow : s.pending.length > B.length) : s.pending ≠ [] := by
  intro hnil
  rw [hnil] at hgrow
  simp at hgrow

/-! ## Multi-user lemmas -/

theorem guser_gset_self (g : List (Nat × UState)) (u : Nat) (s' : UState) :
    guser (gset u s' g) u = s' := by
  unfold guser gset
  cases hg : alookup u g with
  | some w => rw [alookup_aset_self _ (by rw [hg]; rfl)]; rfl
  | none => rw [alookup_cons_self]; rfl

theorem guser_gset_ne {u v : Nat} (h : v ≠ u) (g : List (Nat × UState))
    (s' : UState) : guser (gset u s' g) v = guser g v := by
  unfold guser gset
  cases hg : alookup u g with
  | some w => rw [alookup_aset_ne h _ _]
  | none => rw [alookup_cons_ne (fun hu => h hu.symm) _ _]

/-- Per-user invariant of the whole registry. -/
def GInvs (P : String) (g : List (Nat × UState)) : Prop :=
  ∀ u, Invs P (guser g u)

theorem ginvs_init (P : String) : GInvs P [] := fun _ => invs_init P

theorem ginvs_step {P : String} {env : ToolsEnv} {g : List (Nat × UState)}
    {u : Nat} {e : Ev} {g' : List (Nat × UState)}
    (h : gstep P env g u e = some g') (hinv : GInvs P g) : GInvs P g' := by
  unfold gstep at h
  cases hst : stepU P env (guser g u) e with
  | none => rw [hst] at h; exact Option.noConfusion h
  | some s' =>
    rw [hst] at h
    cases h
    intro v
    by_cases hv : v = u
    · subst hv; rw [guser_gset_self]; exact invs_step hst (hinv v)
    · rw [guser_gset_ne hv]; exact hinv v

theorem ginvs_grun {P : String} {env : ToolsEnv} :
    ∀ {ges : List (Nat × Ev)} {g g' : List (Nat × UState)},
      grunFrom P env g ges = some g' → GInvs P g → GInvs P g' := by
  intro ges
  induction ges with
  | nil =>
    intro g g' h hinv
    simp only [grunFrom] at h
    cases h
    exact hinv
  | cons ue ges ih =>
    intro g g' h hinv
    simp only [grunFrom] at h
    cases hst : gstep P env g ue.1 ue.2 with
    | none => rw [hst] at h; exact Option.noConfusion h
    | some g1 =>
      rw [hst] at h
      exact ih h (ginvs_step hst hinv)

/-! ## Concrete instances used by witnesses and counterexamples -/

/-- A tool table with exactly one registered function, `get_weather`;
argument parsing always succeeds and the invocation returns `"sunny"`
serialized. -/
def envScenarioB : ToolsEnv :=
  { parse := fun _ => Except.ok "parsed",
    registered := fun n =>
      if n = "get_weather" then some (fun _ => Except.ok "\"sunny\"") else none }

/-- Two tool-call requests: one with a registered name, one without. -/
def tcsScenarioB : List ToolCallReq :=
  [{ name := "get_weather", arguments := "argsA", id := "id1" },
   { name := "mystery_tool", arguments := "argsB", id := "id2" }]

/-- The phase-1 prompt of the scenario: two persisted history rows and the
one-message batch `["weather?"]`. -/
def apiScenarioB : List Turn :=
  apiMessages "SYS" [{ role := "user", content := "old question" },
                     { role := "assistant", content := "old answer" }] ["weather?"]

/-! ## Claim theorems -/

/-- Claim C4 (amended): Prompt construction: for every non-empty snapshot `B`,
the turn list sent to the phase-1 completion is the combined list
(system turn :: `H`) with the last `|B|` entries of that *combined* list
dropped, followed by the synthetic user turn; whenever `|B| ≤ |H|` this
equals a system turn at the head, followed by `H` with its last `|B|` turns
dropped, followed by the user turn.  (When `|B| > |H|` the system turn is
itself dropped, refuting the original claim's "always present at the
head".) -/
theorem prompt_construction (P : String) (H : List HistMsg) (B : List String)
    (hB : B ≠ []) :
    apiMessages P H B
      = ({ role := systemRole, content := some P } :: H.map histTurn).take
          (1 + H.length - B.length) ++ [userTurn B]
    ∧ (B.length ≤ H.length →
        apiMessages P H B
          = { role := systemRole, content := some P }
              :: ((H.take (H.length - B.length)).map histTurn ++ [userTurn B])) := by
  have hBlen : B.length ≠ 0 := by simpa using hB
  constructor
  · unfold apiMessages pySliceDropLast formatConversationHistory
    rw [if_neg hBlen]
    congr 2
    simp [Nat.add_comm]
  · intro hle
    unfold apiMessages pySliceDropLast formatConversationHistory
    rw [if_neg hBlen]
    have hlen : ({ role := systemRole, content := some P } :: H.map histTurn
        : List Turn).length - B.length = (H.length - B.length) + 1 := by
      simp only [List.length_cons, List.length_map]
      omega
    rw [hlen, List.take_succ_cons, List.cons_append]
    congr 2
    exact (List.map_take histTurn H (H.length - B.length)).symm

/-- Claim C4 counterexample: With an empty fetched history and batch `["hi"]`
the prompt contains no system turn at all: dropping the last `|B| = 1`
entries of `[system]` removes the system turn, so the prompt is just the
synthetic user turn (role `"user"`, not `"system"`). -/
theorem prompt_construction_counterexample :
    apiMessages "SYS" [] ["hi"] = [{ role := userRole, content := some "hi" }]
    ∧ userRole ≠ systemRole := by
  exact ⟨rfl, by decide⟩

/-- Witness for C4: with two history rows and a one-message batch, the
prompt is system turn + history minus its last turn + user turn. -/
theorem prompt_construction_witness :
    apiMessages "SYS" [{ role := "user", content := "q1" },
                       { role := "assistant", content := "a1" }] ["hello"]
      = { role := systemRole, content := some "SYS" }
          :: ((([{ role := "user", content := "q1" },
                 { role := "assistant", content := "a1" }] : List HistMsg).take
                (([{ role := "user", content := "q1" },
                   { role := "assistant", content := "a1" }] : List HistMsg).length
                  - (["hello"] : List String).length)).map histTurn
              ++ [userTurn ["hello"]]) :=
  (prompt_construction "SYS"
    [{ role := "user", content := "q1" }, { role := "assistant", content := "a1" }]
    ["hello"] (by decide)).2 (by decide)

/-- Claim C3 (code bug): Partial tool resolution (Scenario B): with two
tool-call requests of which exactly one is registered, exactly one
tool-result turn is produced (second conjunct), but the returned outcome is
*not* the assistant echo + single tool turn + final assistant turn: the
slice `updated_messages[-(len(tool_calls)+1):]` assumes one result turn per
request, so the outcome has four turns, beginning with a stray user-role
turn whose content is `None` and an assistant turn whose content is `None`
(the echo's `tool_calls` payload is lost). -/
theorem scenario_b_partial_resolution :
    responseMessages (processToolCalls envScenarioB apiScenarioB tcsScenarioB)
        tcsScenarioB.length (some "It is sunny")
      = [{ role := userRole, content := none },
         { role := assistantRole, content := none },
         { role := toolRole, content := some "\"sunny\"" },
         { role := assistantRole, content := some "It is sunny" }]
    ∧ (tcsScenarioB.filterMap (toolResultTurn envScenarioB)).length = 1
    ∧ tcsScenarioB.length = 2 := by
  refine ⟨rfl, rfl, rfl⟩

/-- Claim C8: Tool-call isolation and ordering: `_process_tool_calls` always
returns the input followed by the echo turn and the per-request result
turns in request order; a request with an unknown name, a failing argument
parse, or a failing invocation contributes no result turn and does not
abort the processing (the result is still the total function value for the
whole list); every emitted result turn is correlated by its request's call
id. -/
theorem tool_call_isolation (env : ToolsEnv) (msgs : List Turn)
    (tcs : List ToolCallReq) :
    processToolCalls env msgs tcs
        = msgs ++ echoTurn tcs :: tcs.filterMap (toolResultTurn env)
    ∧ (∀ tc : ToolCallReq, env.registered tc.name = none →
        toolResultTurn env tc = none)
    ∧ (∀ tc : ToolCallReq, env.parse tc.arguments = Except.error () →
        toolResultTurn env tc = none)
    ∧ (∀ tc args f, env.parse tc.arguments = Except.ok args →
        env.registered tc.name = some f → f args = Except.error () →
        toolResultTurn env tc = none)
    ∧ (∀ tc turn, toolResultTurn env tc = some turn →
        turn.tool_call_id = some tc.id ∧ turn.role = toolRole) := by
  refine ⟨processToolCalls_eq env msgs tcs, ?_, ?_, ?_, ?_⟩
  · intro tc hreg
    cases hp : env.parse tc.arguments with
    | error e => simp [toolResultTurn, hp]
    | ok args => simp [toolResultTurn, hp, hreg]
  · intro tc hp
    simp [toolResultTurn, hp]
  · intro tc args f hp hreg hf
    simp [toolResultTurn, hp, hreg, hf]
  · intro tc turn h
    unfold toolResultTurn at h
    split at h
    · exact Option.noConfusion h
    · split at h
      · exact Option.noConfusion h
      · split at h
        · exact Option.noConfusion h
        · cases Option.some.inj h
          exact ⟨rfl, rfl⟩

/-- Witness for C8: in the concrete scenario, the output decomposition
holds and the unregistered request produces no result turn. -/
theorem tool_call_isolation_witness :
    processToolCalls envScenarioB [] tcsScenarioB
        = [] ++ echoTurn tcsScenarioB
            :: tcsScenarioB.filterMap (toolResultTurn envScenarioB)
    ∧ toolResultTurn envScenarioB
        { name := "mystery_tool", arguments := "argsB", id := "id2" } = none := by
  have h := tool_call_isolation envScenarioB [] tcsScenarioB
  exact ⟨h.1, h.2.1 _ rfl⟩

/-- Claim C10: Frame property of `_process_tool_calls`: the function works on
a copy (`messages.copy()`), so the input list is a prefix of the result,
the result is exactly the input followed by the echo turn and the result
turns, and the first `|input|` entries of the result are the unchanged
input. -/
theorem process_tool_calls_frame (env : ToolsEnv) (msgs : List Turn)
    (tcs : List ToolCallReq) :
    msgs <+: processToolCalls env msgs tcs
    ∧ processToolCalls env msgs tcs
        = msgs ++ echoTurn tcs :: tcs.filterMap (toolResultTurn env)
    ∧ (processToolCalls env msgs tcs).take msgs.length = msgs := by
  have heq := processToolCalls_eq env msgs tcs
  refine ⟨?_, heq, ?_⟩
  · rw [heq]
    exact List.prefix_append _ _
  · rw [heq]
    exact List.take_left _ _

theorem genLoopE_ok {P : String} {env : ToolsEnv} :
    ∀ {os : List AttemptOracle} {pending : List String}
      {r : Except Unit (Option (List Turn))},
      genLoopE P env os pending = some r → ∃ v, r = Except.ok v := by
  intro os
  induction os with
  | nil => intro pending r h; simp [genLoopE] at h
  | cons o os ih =>
    intro pending r h
    simp only [genLoopE] at h
    cases hit : loopIter P env o pending with
    | error e =>
      simp only [hit] at h
      exact ⟨none, (Option.some.inj h).symm⟩
    | ok v =>
      cases v with
      | inl ret =>
        simp only [hit] at h
        exact ⟨ret, (Option.some.inj h).symm⟩
      | inr p' =>
        simp only [hit] at h
        exact ih h

/-- Claim C9: Totality of the public boundary: for every oracle behaviour of
the collaborators — the history fetch may raise, either completion call may
raise (caught inside `_generate_completion`), tool parsing/invocation may
raise (caught per call) — and for every terminating run of the loop,
`generate_response` returns `Except.ok`: either a turn sequence or `none`,
never a propagated exception. -/
theorem generate_response_total (P : String) (env : ToolsEnv) (locked : Bool)
    (os : List AttemptOracle) (pending : List String) (msg : String)
    (r : Except Unit (Option (List Turn)))
    (h : generateResponseE P env locked os pending msg = some r) :
    ∃ v, r = Except.ok v := by
  unfold generateResponseE at h
  by_cases hlk : locked
  · rw [if_pos hlk] at h
    exact ⟨none, (Option.some.inj h).symm⟩
  · rw [if_neg hlk] at h
    exact genLoopE_ok h

/-- Witness for C9: with a history fetch that raises, the call returns
`ok none` (the exception is caught; nothing escapes). -/
theorem generate_response_total_witness :
    ∃ v, (Except.ok none : Except Unit (Option (List Turn))) = Except.ok v :=
  generate_response_total "SYS" envScenarioB false
    [{ hist := Except.error (), res1 := Except.error (), arr1 := [],
       res2 := Except.error (), arr2 := [] }] [] "hi" (Except.ok none) rfl

/-- Claim C7: entry-gate deferral.  When a call arrives while the user's
processor lock is held, the message is appended to the tail of the pending
buffer (which is otherwise unchanged), the call returns absent
(`doneDeferred`) without starting a generation, the lock holder and every
other task are untouched, and the appended text is observable at the
holder's next restart checkpoint: every active snapshot `B` now satisfies
`|B| < |pending|`, so the next length comparison fires. -/
theorem entry_gate_deferral (P : String) (env : ToolsEnv) (es : List Ev)
    (s : UState) (t' t : Nat) (msg : String) (s' : UState)
    (hrun : runFrom P env initU es = some s)
    (hlock : s.lock = some t')
    (hstep : stepU P env s (Ev.call t msg) = some s') :
    s'.pending = s.pending ++ [msg]
    ∧ alookup t s'.tasks = some TaskPC.doneDeferred
    ∧ s'.lock = some t'
    ∧ s'.registered = true
    ∧ (∀ a, a ≠ t → alookup a s'.tasks = alookup a s.tasks)
    ∧ (∀ a pc B, alookup a s.tasks = some pc → pc.snap = some B →
        B.length < s'.pending.length) := by
  have hinvs := invs_run hrun (invs_init P)
  cases hl : alookup t s.tasks with
  | some pc => simp only [stepU, hl] at hstep; exact Option.noConfusion hstep
  | none =>
    rw [step_call_eq msg hl, entry_locked_eq hlock] at hstep
    cases Option.some.inj hstep
    refine ⟨rfl, alookup_cons_self _ _ _, hlock, rfl, ?_, ?_⟩
    · intro a ha
      exact alookup_cons_ne (fun he => ha he.symm) _ _
    · intro a pc B hla hsnap
      have hle := (hinvs.2.1 a pc B hla hsnap).length_le
      calc B.length ≤ s.pending.length := hle
        _ < (s.pending ++ [msg]).length := by simp

/-- Concrete state after `call 0 "hi"`: task 0 holds the lock and is
suspended at the history fetch. -/
def sC7 : UState :=
  { registered := true, pending := ["hi"], lock := some 0,
    tasks := [(0, TaskPC.atFetch ["hi"])] }

/-- Concrete state after a second call `call 1 "yo"` is deferred. -/
def sC7' : UState :=
  { registered := true, pending := ["hi", "yo"], lock := some 0,
    tasks := [(1, TaskPC.doneDeferred), (0, TaskPC.atFetch ["hi"])] }

/-- Witness for C7 at a concrete deferred call. -/
theorem entry_gate_deferral_witness :
    sC7'.pending = sC7.pending ++ ["yo"]
    ∧ alookup 1 sC7'.tasks = some TaskPC.doneDeferred
    ∧ sC7'.lock = some 0
    ∧ sC7'.registered = true
    ∧ (∀ a, a ≠ 1 → alookup a sC7'.tasks = alookup a sC7.tasks)
    ∧ (∀ a pc B, alookup a sC7.tasks = some pc → pc.snap = some B →
        B.length < sC7'.pending.length) :=
  entry_gate_deferral "SYS" envScenarioB [Ev.call 0 "hi"] sC7 0 1 "yo" sC7'
    rfl rfl rfl

/-- Claim C1: loss-freedom via the restart check.  Along any trace in which
no generation attempt has yet completed (`noGenDone`), the pending buffer is
exactly the arrival-ordered list of all appended messages; when a phase-1
(or phase-2) completion returns and the attempt reaches SUCCESS
(`doneGen (some out)`), its snapshot `B` equals that whole list and the
prompt it used ends in the synthetic user turn `userTurn B`, the
newline-join of `B`; and whenever the pending buffer holds strictly more
entries than `|B|`, the attempt discards its work and re-enters the loop at
a fresh snapshot of the whole buffer (`atFetch s.pending`). -/
theorem loss_freedom (P : String) (env : ToolsEnv) (es : List Ev) (s : UState)
    (hrun : runFrom P env initU es = some s) (hnd : noGenDone s) :
    (∀ t B api m s' out,
      alookup t s.tasks = some (TaskPC.atP1 B api) →
      stepU P env s (Ev.p1 t (some m)) = some s' →
      ((alookup t s'.tasks = some (TaskPC.doneGen (some out)) →
          B = callMsgs es ∧ api.getLast? = some (userTurn B))
        ∧ (s.pending.length > B.length →
            alookup t s'.tasks = some (TaskPC.atFetch s.pending))))
    ∧ (∀ t B api n upd m s' out,
      alookup t s.tasks = some (TaskPC.atP2 B api n upd) →
      stepU P env s (Ev.p2 t (some m)) = some s' →
      ((alookup t s'.tasks = some (TaskPC.doneGen (some out)) →
          B = callMsgs es ∧ api.getLast? = some (userTurn B))
        ∧ (s.pending.length > B.length →
            alookup t s'.tasks = some (TaskPC.atFetch s.pending)))) := by
  have hinvs := invs_run hrun (invs_init P)
  have hpend := reach_pending hrun hnd
  constructor
  · intro t B api m s' out hl hstep
    obtain ⟨H, hapi⟩ := hinvs.2.2 t _ B api hl rfl
    have hlast : api.getLast? = some (userTurn B) := by
      rw [hapi]
      exact List.getLast?_concat _
    constructor
    · intro hdone
      by_cases hgrow : s.pending.length > B.length
      · rw [step_p1_restart_eq m hl hgrow] at hstep
        cases Option.some.inj hstep
        rw [alookup_enterLoop_self (pending_ne_nil_of_grow hgrow) hl] at hdone
        exact TaskPC.noConfusion (Option.some.inj hdone)
      · by_cases htc : m.tool_calls = []
        · have hpre := hinvs.2.1 t _ B hl rfl
          have hBp : B = s.pending :=
            hpre.eq_of_length
              (Nat.le_antisymm hpre.length_le (Nat.le_of_not_lt hgrow))
          exact ⟨by rw [hBp, hpend], hlast⟩
        · rw [step_p1_tools_eq hl hgrow htc] at hstep
          cases Option.some.inj hstep
          replace hdone : alookup t
              (aset t (TaskPC.atP2 B api m.tool_calls.length
                (processToolCalls env api m.tool_calls)) s.tasks)
              = some (TaskPC.doneGen (some out)) := hdone
          rw [alookup_aset_self _ (by rw [hl]; rfl)] at hdone
          exact TaskPC.noConfusion (Option.some.inj hdone)
    · intro hgrow
      rw [step_p1_restart_eq m hl hgrow] at hstep
      cases Option.some.inj hstep
      exact alookup_enterLoop_self (pending_ne_nil_of_grow hgrow) hl
  · intro t B api n upd m s' out hl hstep
    obtain ⟨H, hapi⟩ := hinvs.2.2 t _ B api hl rfl
    have hlast : api.getLast? = some (userTurn B) := by
      rw [hapi]
      exact List.getLast?_concat _
    constructor
    · intro _hdone
      by_cases hgrow : s.pending.length > B.length
      · rw [step_p2_restart_eq m hl hgrow] at hstep
        cases Option.some.inj hstep
        rw [alookup_enterLoop_self (pending_ne_nil_of_grow hgrow) hl] at _hdone
        exact TaskPC.noConfusion (Option.some.inj _hdone)
      · have hpre := hinvs.2.1 t _ B hl rfl
        have hBp : B = s.pending :=
          hpre.eq_of_length
            (Nat.le_antisymm hpre.length_le (Nat.le_of_not_lt hgrow))
        exact ⟨by rw [hBp, hpend], hlast⟩
    · intro hgrow
      rw [step_p2_restart_eq m hl hgrow] at hstep
      cases Option.some.inj hstep
      exact alookup_enterLoop_self (pending_ne_nil_of_grow hgrow) hl

/-- Scenario A trace: two messages arrive in quick succession, the first
attempt restarts, the second attempt is suspended at its phase-1 call over
the coalesced snapshot. -/
def esC1 : List Ev :=
  [Ev.call 0 "hi", Ev.call 1 "how are you", Ev.histOk 0 [],
   Ev.p1 0 (some { content := some "draft", tool_calls := [] }), Ev.histOk 0 []]

/-- Concrete state reached by `esC1`. -/
def sC1 : UState :=
  { registered := true, pending := ["hi", "how are you"], lock := some 0,
    tasks := [(1, TaskPC.doneDeferred),
              (0, TaskPC.atP1 ["hi", "how are you"]
                    [userTurn ["hi", "how are you"]])] }

/-- Concrete state after the successful phase-1 completion of `sC1`. -/
def sC1done : UState :=
  { registered := true, pending := [], lock := none,
    tasks := [(1, TaskPC.doneDeferred),
              (0, TaskPC.doneGen
                    (some [{ role := assistantRole, content := some "final" }]))] }

/-- Witness for C1 on the Scenario A trace: the successful snapshot is both
appended messages in arrival order, and the prompt ends in their
newline-join. -/
theorem loss_freedom_witness :
    (["hi", "how are you"] : List String) = callMsgs esC1
    ∧ ([userTurn ["hi", "how are you"]] : List Turn).getLast?
        = some (userTurn ["hi", "how are you"]) :=
  ((loss_freedom "SYS" envScenarioB esC1 sC1 rfl (by decide)).1 0
      ["hi", "how are you"] [userTurn ["hi", "how are you"]]
      { content := some "final", tool_calls := [] } sC1done
      [{ role := assistantRole, content := some "final" }] rfl rfl).1 rfl

/-- Claim C2 (amended): terminal-path buffer handling.  On the exception
path (history-fetch failure) and on both success paths the buffer is
cleared; but the processor is never evicted there — `_cleanup_processor`
runs while the lock is still held, so `registered` is unchanged on every
terminal path; and a null phase-1 or phase-2 completion result returns
absent *without* clearing the buffer (it is left exactly as it was) and
without evicting.  The lock is released on every terminal path. -/
theorem terminal_path_buffers (P : String) (env : ToolsEnv) (es : List Ev)
    (s : UState) (hrun : runFrom P env initU es = some s) :
    (∀ t B s', alookup t s.tasks = some (TaskPC.atFetch B) →
      stepU P env s (Ev.histFail t) = some s' →
      s'.pending = [] ∧ s'.registered = s.registered ∧ s'.lock = none
        ∧ alookup t s'.tasks = some (TaskPC.doneGen none))
    ∧ (∀ t B api s', alookup t s.tasks = some (TaskPC.atP1 B api) →
      stepU P env s (Ev.p1 t none) = some s' →
      s'.pending = s.pending ∧ s'.registered = s.registered ∧ s'.lock = none
        ∧ alookup t s'.tasks = some (TaskPC.doneGen none))
    ∧ (∀ t B api n upd s', alookup t s.tasks = some (TaskPC.atP2 B api n upd) →
      stepU P env s (Ev.p2 t none) = some s' →
      s'.pending = s.pending ∧ s'.registered = s.registered ∧ s'.lock = none
        ∧ alookup t s'.tasks = some (TaskPC.doneGen none))
    ∧ (∀ t B api m s', alookup t s.tasks = some (TaskPC.atP1 B api) →
      ¬ s.pending.length > B.length → m.tool_calls = [] →
      stepU P env s (Ev.p1 t (some m)) = some s' →
      s'.pending = [] ∧ s'.registered = s.registered ∧ s'.lock = none
        ∧ alookup t s'.tasks = some (TaskPC.doneGen
            (some [{ role := assistantRole, content := m.content }])))
    ∧ (∀ t B api n upd m s', alookup t s.tasks = some (TaskPC.atP2 B api n upd) →
      ¬ s.pending.length > B.length →
      stepU P env s (Ev.p2 t (some m)) = some s' →
      s'.pending = [] ∧ s'.registered = s.registered ∧ s'.lock = none
        ∧ alookup t s'.tasks = some (TaskPC.doneGen
            (some (responseMessages upd n m.content)))) := by
  have hinvs := invs_run hrun (invs_init P)
  refine ⟨?_, ?_, ?_, ?_, ?_⟩
  · intro t B s' hl hstep
    have hlock : s.lock = some t := hinvs.1 t _ hl rfl
    have hlockne : s.lock ≠ none := by
      rw [hlock]; exact fun hc => Option.noConfusion hc
    rw [step_histFail_eq hl] at hstep
    cases Option.some.inj hstep
    exact ⟨retClear_pending _ _ _, retClear_registered _ _ hlockne, rfl,
      alookup_retClear_self _ hl⟩
  · intro t B api s' hl hstep
    rw [step_p1_none_eq hl] at hstep
    cases Option.some.inj hstep
    exact ⟨rfl, rfl, rfl, alookup_retNoClear_self hl⟩
  · intro t B api n upd s' hl hstep
    rw [step_p2_none_eq hl] at hstep
    cases Option.some.inj hstep
    exact ⟨rfl, rfl, rfl, alookup_retNoClear_self hl⟩
  · intro t B api m s' hl hgrow htc hstep
    have hlock : s.lock = some t := hinvs.1 t _ hl rfl
    have hlockne : s.lock ≠ none := by
      rw [hlock]; exact fun hc => Option.noConfusion hc
    rw [step_p1_success_eq hl hgrow htc] at hstep
    cases Option.some.inj hstep
    exact ⟨retClear_pending _ _ _, retClear_registered _ _ hlockne, rfl,
      alookup_retClear_self _ hl⟩
  · intro t B api n upd m s' hl hgrow hstep
    have hlock : s.lock = some t := hinvs.1 t _ hl rfl
    have hlockne : s.lock ≠ none := by
      rw [hlock]; exact fun hc => Option.noConfusion hc
    rw [step_p2_success_eq m hl hgrow] at hstep
    cases Option.some.inj hstep
    exact ⟨retClear_pending _ _ _, retClear_registered _ _ hlockne, rfl,
      alookup_retClear_self _ hl⟩

/-- Claim C2 counterexample: a null phase-1 completion result is a terminal
path on which the call returns absent (`doneGen none`) with the buffer
*not* empty afterward (`["hi"]`) and the processor still registered —
refuting "on every terminal path the buffer is empty afterward and the
processor is evicted". -/
theorem completion_failure_counterexample :
    runFrom "SYS" envScenarioB initU [Ev.call 0 "hi", Ev.histOk 0 [], Ev.p1 0 none]
      = some { registered := true, pending := ["hi"], lock := none,
               tasks := [(0, TaskPC.doneGen none)] }
    ∧ (["hi"] : List String) ≠ [] :=
  ⟨rfl, by decide⟩

/-- Concrete state with the lock held and a phase-1 call in flight. -/
def sC2 : UState :=
  { registered := true, pending := ["hi"], lock := some 0,
    tasks := [(0, TaskPC.atP1 ["hi"] [userTurn ["hi"]])] }

/-- Concrete state after the phase-1 completion returns null. -/
def sC2' : UState :=
  { registered := true, pending := ["hi"], lock := none,
    tasks := [(0, TaskPC.doneGen none)] }

/-- Witness for the amended C2 at the null-phase-1 terminal path. -/
theorem terminal_path_buffers_witness :
    sC2'.pending = sC2.pending ∧ sC2'.registered = sC2.registered
      ∧ sC2'.lock = none ∧ alookup 0 sC2'.tasks = some (TaskPC.doneGen none) :=
  (terminal_path_buffers "SYS" envScenarioB [Ev.call 0 "hi", Ev.histOk 0 []]
      sC2 rfl).2.1 0 ["hi"] [userTurn ["hi"]] sC2' rfl rfl

/-- Successful-generation trace for C5. -/
def esC5 : List Ev :=
  [Ev.call 0 "hi", Ev.histOk 0 [],
   Ev.p1 0 (some { content := some "ok", tool_calls := [] })]

/-- Claim C5 counterexample: after a successful generation the buffer is
empty and the lock free, yet the processor is still registered — the
cleanup ran while the lock was held and was a no-op, refuting "once a
successful generation has cleared the buffer and released the lock, the
processor is no longer in the registry". -/
theorem registry_eviction_counterexample :
    (runFrom "SYS" envScenarioB initU esC5).map UState.registered = some true
    ∧ (runFrom "SYS" envScenarioB initU esC5).map UState.pending = some []
    ∧ (runFrom "SYS" envScenarioB initU esC5).map UState.lock = some none :=
  ⟨rfl, rfl, rfl⟩

/-- Claim C5 (amended): `_cleanup_processor` removes the registry entry iff
it is present with empty buffer and free lock, and is a no-op otherwise;
but because it is invoked before the terminal `return` releases the lock,
a successful generation leaves the processor registered (with empty buffer
and free lock). -/
theorem registry_eviction (P : String) (env : ToolsEnv) :
    (∀ s : UState, s.registered = true → s.pending = [] → s.lock = none →
      cleanupU s = { s with registered := false })
    ∧ (∀ s : UState, ¬ (s.registered = true ∧ s.pending = [] ∧ s.lock = none) →
      cleanupU s = s)
    ∧ (∀ es s t B api m s', runFrom P env initU es = some s →
        alookup t s.tasks = some (TaskPC.atP1 B api) →
        ¬ s.pending.length > B.length → m.tool_calls = [] →
        stepU P env s (Ev.p1 t (some m)) = some s' →
        s'.registered = s.registered ∧ s'.pending = [] ∧ s'.lock = none) := by
  refine ⟨?_, ?_, ?_⟩
  · intro s h1 h2 h3
    unfold cleanupU
    rw [if_pos ⟨h1, h2, h3⟩]
  · intro s h
    unfold cleanupU
    rw [if_neg h]
  · intro es s t B api m s' hrun hl hgrow htc hstep
    have hinvs := invs_run hrun (invs_init P)
    have hlock : s.lock = some t := hinvs.1 t _ hl rfl
    have hlockne : s.lock ≠ none := by
      rw [hlock]; exact fun hc => Option.noConfusion hc
    rw [step_p1_success_eq hl hgrow htc] at hstep
    cases Option.some.inj hstep
    exact ⟨retClear_registered _ _ hlockne, retClear_pending _ _ _, rfl⟩

/-- Witness for the amended C5: cleanup is a no-op on a locked processor. -/
theorem registry_eviction_witness : cleanupU sC2 = sC2 :=
  (registry_eviction "SYS" envScenarioB).2.1 sC2 (by decide)

/-- Claim C6: mutual exclusion.  In every reachable registry state, any
task of a user in an active (post-lock-acquisition) state holds that user's
lock, so at most one generation per user id is active at any time; and
steps of one user's calls neither read nor modify any other user's entry —
a step for user `u` leaves every user `v ≠ u` unchanged, and whether it is
enabled depends only on user `u`'s own state, so generations for distinct
user ids never wait on each other's lock. -/
theorem mutual_exclusion (P : String) (env : ToolsEnv) (ges : List (Nat × Ev))
    (g : List (Nat × UState)) (hrun : grunFrom P env [] ges = some g) :
    (∀ u t pc, alookup t (guser g u).tasks = some pc → pc.isActive = true →
      (guser g u).lock = some t)
    ∧ (∀ u t₁ t₂ pc₁ pc₂, alookup t₁ (guser g u).tasks = some pc₁ →
        pc₁.isActive = true → alookup t₂ (guser g u).tasks = some pc₂ →
        pc₂.isActive = true → t₁ = t₂)
    ∧ (∀ u e g' v, gstep P env g u e = some g' → v ≠ u →
        guser g' v = guser g v)
    ∧ (∀ u e, gstep P env g u e = none ↔ stepU P env (guser g u) e = none) := by
  have hinv : GInvs P g := ginvs_grun hrun (ginvs_init P)
  refine ⟨fun u t pc hl ha => (hinv u).1 t pc hl ha, ?_, ?_, ?_⟩
  · intro u t₁ t₂ pc₁ pc₂ h1 a1 h2 a2
    exact active_unique (hinv u).1 h2 a2 h1 a1
  · intro u e g' v hst hv
    unfold gstep at hst
    cases hs : stepU P env (guser g u) e with
    | none => rw [hs] at hst; exact Option.noConfusion hst
    | some s' =>
      rw [hs] at hst
      cases Option.some.inj hst
      exact guser_gset_ne hv _ _
  · intro u e
    unfold gstep
    cases hs : stepU P env (guser g u) e with
    | none => simp
    | some s' => simp

/-- User 7's state after its first call. -/
def sUserA : UState :=
  { registered := true, pending := ["a"], lock := some 0,
    tasks := [(0, TaskPC.atFetch ["a"])] }

/-- User 9's state after its first call. -/
def sUserB : UState :=
  { registered := true, pending := ["b"], lock := some 1,
    tasks := [(1, TaskPC.atFetch ["b"])] }

/-- Two-user trace: users 7 and 9 each send one message. -/
def gesC6 : List (Nat × Ev) := [(7, Ev.call 0 "a"), (9, Ev.call 1 "b")]

/-- Registry after `gesC6`. -/
def gC6 : List (Nat × UState) := [(9, sUserB), (7, sUserA)]

/-- User 7's state after its history fetch returns. -/
def sUserA' : UState :=
  { registered := true, pending := ["a"], lock := some 0,
    tasks := [(0, TaskPC.atP1 ["a"] [userTurn ["a"]])] }

/-- Registry after user 7's history fetch returns. -/
def gC6' : List (Nat × UState) := [(9, sUserB), (7, sUserA')]

/-- Witness for C6: a step of user 7 leaves user 9's state unchanged. -/
theorem mutual_exclusion_witness : guser gC6' 9 = guser gC6 9 :=
  (mutual_exclusion "SYS" envScenarioB gesC6 gC6 rfl).2.2.1 7 (Ev.histOk 0 [])
    gC6' 9 rfl (by decide)

end Twiga
